import Mathlib

/-!
Shallow embedding of `src/utils.py`, a training/evaluation harness for a
supervised classifier.  Tensors are modelled as lists of rationals, Python
exceptions as `Except`, dictionaries as a key list together with a lookup
function.  Each definition is translated from the corresponding Python
function; theorems about them follow at the end of the file.
-/

/-- A (one-dimensional) tensor of rational entries. -/
abbrev Tensor := List ℚ

/-- Python runtime errors that the embedded code can raise. -/
inductive PyError where
  | zeroDivisionError
  deriving DecidableEq

/-! ### `str_to_bool` (src/utils.py lines 230-239) -/

/-- The argument passed to `str_to_bool`: Python is untyped, the function
accepts a `bool` or a `str`. -/
inductive ArgValue where
  | bool (b : Bool)
  | str (s : String)

/-- `argparse.ArgumentTypeError('Boolean value expected.')`. -/
inductive ArgTypeError where
  | booleanValueExpected
  deriving DecidableEq

/-- The tuple `('yes', 'true', 't', 'y', '1')` at line 234. -/
def trueStrings : List String := ["yes", "true", "t", "y", "1"]

/-- The tuple `('no', 'false', 'f', 'n', '0')` at line 236. -/
def falseStrings : List String := ["no", "false", "f", "n", "0"]

/-- `str_to_bool` from src/utils.py: a `bool` is returned unchanged, a string
is lowercased and matched against the two tuples, anything else raises
`ArgumentTypeError`. -/
def str_to_bool : ArgValue → Except ArgTypeError Bool
  | ArgValue.bool b => Except.ok b
  | ArgValue.str v =>
    if v.toLower ∈ trueStrings then Except.ok true
    else if v.toLower ∈ falseStrings then Except.ok false
    else Except.error ArgTypeError.booleanValueExpected

/-! ### `AverageMeter` (src/utils.py lines 188-210) -/

/-- The `AverageMeter` object: `name` and `fmt` are the formatting fields, the
numeric state is `val`, `avg`, `sum`, `count`. -/
structure AverageMeter where
  name : String
  fmt : String
  val : ℚ
  avg : ℚ
  sum : ℚ
  count : ℚ
  deriving DecidableEq

/-- `AverageMeter.reset`: sets the four numeric fields to `0`. -/
def AverageMeter.reset (m : AverageMeter) : AverageMeter :=
  { m with val := 0, avg := 0, sum := 0, count := 0 }

/-- `AverageMeter.update(val, n)`: `self.val = val; self.sum += val * n;
self.count += n; self.avg = self.sum / self.count`.  The final division
raises `ZeroDivisionError` when the updated count is zero, which we model as
`Except.error`. -/
def AverageMeter.update (m : AverageMeter) (val n : ℚ) : Except PyError AverageMeter :=
  let sum := m.sum + val * n
  let count := m.count + n
  if count = 0 then Except.error PyError.zeroDivisionError
  else Except.ok { m with val := val, sum := sum, count := count, avg := sum / count }

/-- A sequence of `update` calls, left to right; the first raised error
propagates. -/
def AverageMeter.updates (m : AverageMeter) : List (ℚ × ℚ) → Except PyError AverageMeter
  | [] => Except.ok m
  | u :: us =>
    match m.update u.1 u.2 with
    | Except.error e => Except.error e
    | Except.ok r => r.updates us

/-- `true` when every intermediate count (each prefix sum of the `n` arguments
added to the starting count `c0`) is nonzero, so that no `update` in the
sequence divides by zero. -/
def countsStayNonzero (c0 : ℚ) : List (ℚ × ℚ) → Bool
  | [] => true
  | u :: us => decide (c0 + u.2 ≠ 0) && countsStayNonzero (c0 + u.2) us

/-! ### The stats recorder (src/utils.py lines 249-280) -/

/-- The `SimpleNamespace` produced by `init_recorder`, with its eight list
fields. -/
structure Recorder where
  train_step : List ℚ
  train_loss : List ℚ
  train_acc : List ℚ
  lr : List ℚ
  test_step : List ℚ
  test_loss : List ℚ
  test_acc : List ℚ
  ckpts : List ℚ
  deriving DecidableEq

/-- `init_recorder`: all eight lists start empty. -/
def init_recorder : Recorder := ⟨[], [], [], [], [], [], [], []⟩

/-- `record_train_stats(rec, step, loss, acc, lr)`: appends to the four
train-side lists. -/
def record_train_stats (rec : Recorder) (step loss acc lr : ℚ) : Recorder :=
  { rec with
    train_step := rec.train_step ++ [step]
    train_loss := rec.train_loss ++ [loss]
    train_acc := rec.train_acc ++ [acc]
    lr := rec.lr ++ [lr] }

/-- `record_test_stats(rec, step, loss, acc)`: appends to the three test-side
lists. -/
def record_test_stats (rec : Recorder) (step loss acc : ℚ) : Recorder :=
  { rec with
    test_step := rec.test_step ++ [step]
    test_loss := rec.test_loss ++ [loss]
    test_acc := rec.test_acc ++ [acc] }

/-- `record_ckpt(rec, step)`: appends to `ckpts`. -/
def record_ckpt (rec : Recorder) (step : ℚ) : Recorder :=
  { rec with ckpts := rec.ckpts ++ [step] }

/-- One call to a recording function, for reasoning about arbitrary call
sequences. -/
inductive RecEvent where
  | trainEv (step loss acc lr : ℚ)
  | testEv (step loss acc : ℚ)
  | ckptEv (step : ℚ)

/-- Apply one recording call. -/
def applyEvent (rec : Recorder) : RecEvent → Recorder
  | RecEvent.trainEv step loss acc lr => record_train_stats rec step loss acc lr
  | RecEvent.testEv step loss acc => record_test_stats rec step loss acc
  | RecEvent.ckptEv step => record_ckpt rec step

/-- Apply a sequence of recording calls, left to right. -/
def runEvents (rec : Recorder) (evs : List RecEvent) : Recorder :=
  evs.foldl applyEvent rec

/-- The four train-side lists of `rec` have equal length. -/
def trainAligned (rec : Recorder) : Prop :=
  rec.train_step.length = rec.train_loss.length ∧
  rec.train_step.length = rec.train_acc.length ∧
  rec.train_step.length = rec.lr.length

/-- The three test-side lists of `rec` have equal length. -/
def testAligned (rec : Recorder) : Prop :=
  rec.test_step.length = rec.test_loss.length ∧
  rec.test_step.length = rec.test_acc.length

/-! ### `WeightedSubset` (src/utils.py lines 35-45) -/

/-- The state of a successfully constructed `WeightedSubset`. -/
structure WeightedSubset (α : Type) where
  dataset : List α
  indices : List ℕ
  weights : List ℚ

/-- `AssertionError` raised by a failed `assert`. -/
inductive AssertionError where
  | failed
  deriving DecidableEq

/-- `WeightedSubset.__init__`: stores the three fields; the
`assert len(indices) == len(weights)` raises `AssertionError` when the two
lengths differ. -/
def WeightedSubset.make {α : Type} (dataset : List α) (indices : List ℕ)
    (weights : List ℚ) : Except AssertionError (WeightedSubset α) :=
  if indices.length = weights.length then
    Except.ok ⟨dataset, indices, weights⟩
  else Except.error AssertionError.failed

/-- `WeightedSubset.__getitem__` on an integer index:
`(self.dataset[self.indices[idx]], self.weights[idx])`.  In-range access is
modelled with `getD`; the claims only quantify over in-range indices. -/
def WeightedSubset.getItem {α : Type} [Inhabited α] (w : WeightedSubset α)
    (idx : ℕ) : α × ℚ :=
  (w.dataset.getD (w.indices.getD idx 0) default, w.weights.getD idx 0)

/-- `WeightedSubset.__getitem__` on a list index:
`self.dataset[[self.indices[i] for i in idx]], self.weights[[i for i in idx]]`,
fancy indexing modelled as mapping the element lookup over the index list. -/
def WeightedSubset.getItemList {α : Type} [Inhabited α] (w : WeightedSubset α)
    (idx : List ℕ) : List α × List ℚ :=
  (idx.map (fun i => w.dataset.getD (w.indices.getD i 0) default),
   idx.map (fun i => w.weights.getD i 0))

/-! ### `compute_confusion_matrix_elements` (src/utils.py lines 8-33) -/

/-- The per-class counter sub-dictionary `{'TP': _, 'TN': _, 'FP': _}`. -/
structure ConfCounts where
  TP : ℕ
  TN : ℕ
  FP : ℕ
  deriving DecidableEq

/-- The body of the inner loop of `compute_confusion_matrix_elements` for one
sample `(true_label, pred_label)` and one class `cls`: increment `TP` when
both labels equal `cls`, `FP` when only the prediction does, `TN` when
neither does, and nothing when only the true label does (the implicit `FN`
case). -/
def confUpdate (trueLabel predLabel cls : ℤ) (m : ConfCounts) : ConfCounts :=
  if trueLabel = cls then
    if predLabel = cls then { m with TP := m.TP + 1 } else m
  else
    if predLabel = cls then { m with FP := m.FP + 1 }
    else { m with TN := m.TN + 1 }

/-- The counters accumulated for class `cls` over the zipped sample list.  The
Python code loops samples outer and classes inner; since each class's counter
is read and written only by its own inner-loop iteration, accumulating one
class over all samples is the same computation. -/
def classCounts (cls : ℤ) (pairs : List (ℤ × ℤ)) : ConfCounts :=
  pairs.foldl (fun m p => confUpdate p.1 p.2 cls m) ⟨0, 0, 0⟩

/-- The keys of the metrics dictionary:
`np.unique(np.concatenate((y_true, y_pred)))`, the distinct labels of the two
lists (`np.unique` also sorts them; the claims only concern the key set, so we
keep the distinct labels in first-occurrence order). -/
def confusionClasses (yTrue yPred : List ℤ) : List ℤ :=
  (yTrue ++ yPred).dedup

/-- `compute_confusion_matrix_elements(y_true, y_pred)`: the dictionary is
modelled as its key list together with the per-class counter lookup. -/
def compute_confusion_matrix_elements (yTrue yPred : List ℤ) :
    List ℤ × (ℤ → ConfCounts) :=
  (confusionClasses yTrue yPred, fun cls => classCounts cls (yTrue.zip yPred))

/-! ### `accuracy` (src/utils.py lines 213-227) -/

/-- Insert index `x` into an index list sorted by logit value in decreasing
order: `x` goes before the first index whose value is strictly below its own,
so equal values keep the later-inserted index behind. -/
def insertIdxDesc (v : List ℚ) (x : ℕ) : List ℕ → List ℕ
  | [] => [x]
  | y :: ys =>
    if v.getD y 0 > v.getD x 0 then y :: insertIdxDesc v x ys
    else x :: y :: ys

/-- All column indices of a logits row sorted by value in decreasing order
(ties broken by ascending index): the order `output.topk` enumerates
columns. -/
def sortIdxDesc (v : List ℚ) : List ℕ :=
  (List.range v.length).foldr (fun x acc => insertIdxDesc v x acc) []

/-- `output.topk(maxk, 1, True, True)` restricted to one row: the indices of
the `maxk` largest entries, sorted by decreasing value. -/
def topkPred (row : List ℚ) (maxk : ℕ) : List ℕ :=
  (sortIdxDesc row).take maxk

/-- `accuracy(output, target, topk)` from src/utils.py.  `pred` holds each
row's `maxk` top indices; `correct` compares them with the row's target;
`correct[:k].reshape(-1).float().sum()` is the total number of matches within
the first `k` ranks, which we accumulate row by row (summing the transposed
boolean matrix over its first `k` rows visits the same entries); the result
for `k` is that total times `100.0 / batch_size`. -/
def accuracy (output : List (List ℚ)) (target : List ℕ) (topk : List ℕ) :
    List ℚ :=
  let maxk := topk.foldl max 0
  let batch_size := target.length
  let pred := output.map (fun row => topkPred row maxk)
  topk.map (fun k =>
    (((pred.zip target).map
        (fun pt => ((pt.1.take k).countP (fun j => j == pt.2) : ℕ))).sum : ℚ) *
      (100 / (batch_size : ℚ)))

/-! ### `evaluate_accuracy` (src/utils.py lines 47-71) -/

/-- `logits.argmax(dim=1)` on one row: the index of the first maximal entry. -/
def argmaxAux : List ℚ → ℕ → ℕ → ℚ → ℕ
  | [], _, bi, _ => bi
  | x :: xs, i, bi, bv =>
    if bv < x then argmaxAux xs (i + 1) i x else argmaxAux xs (i + 1) bi bv

/-- Index of the first maximal entry of a row (`0` for an empty row, which
`torch.argmax` rejects; the claims never evaluate it there). -/
def argmaxIdx : List ℚ → ℕ
  | [] => 0
  | x :: xs => argmaxAux xs 1 0 x

/-- Number of positions where prediction and label agree:
`(model_pred == true_label).float().sum()`. -/
def matchCount (preds labels : List ℕ) : ℕ :=
  (preds.zip labels).countP (fun p => p.1 == p.2)

/-- One iteration of the loop of `evaluate_accuracy`: a batch is a pair of
the input list and the label list; `net` returns the tuple whose first
component is the logits matrix (`net(X)[0]`), one row per input.  The state
carries `(acc_sum, n, true_labels, model_preds)` exactly as the Python loop
does. -/
def evalStep {I : Type} (net : List I → List (List ℚ) × Tensor)
    (st : ℚ × ℕ × List ℕ × List ℕ) (b : List I × List ℕ) :
    ℚ × ℕ × List ℕ × List ℕ :=
  let logits := (net b.1).1
  let model_pred := logits.map argmaxIdx
  (st.1 + (matchCount model_pred b.2 : ℕ),
   st.2.1 + b.2.length,
   st.2.2.1 ++ b.2,
   st.2.2.2 ++ model_pred)

/-- `evaluate_accuracy(data_iter, net, device)`: fold the loop body over the
batches starting from `(0.0, 0, [], [])` and return
`(acc_sum / n, true_labels, model_preds)`. -/
def evaluate_accuracy {I : Type} (net : List I → List (List ℚ) × Tensor)
    (batches : List (List I × List ℕ)) : ℚ × List ℕ × List ℕ :=
  let st := batches.foldl (evalStep net) (0, 0, [], [])
  (st.1 / (st.2.1 : ℚ), st.2.2.1, st.2.2.2)

/-- The concatenation of the batches' true label lists, in iteration order. -/
def trueLabelsOf {I : Type} (batches : List (List I × List ℕ)) : List ℕ :=
  (batches.map (fun b => b.2)).flatten

/-- The concatenation of the per-row argmax predictions of `net(X)[0]`, in
iteration order. -/
def modelPredsOf {I : Type} (net : List I → List (List ℚ) × Tensor)
    (batches : List (List I × List ℕ)) : List ℕ :=
  (batches.map (fun b => ((net b.1).1).map argmaxIdx)).flatten

/-! ### The per-batch training loss (src/utils.py lines 85-107) -/

/-- `torch.sum` of a tensor. -/
def torchSum (t : Tensor) : ℚ := t.sum

/-- `.mean()` of a tensor. -/
def torchMean (t : Tensor) : ℚ := t.sum / (t.length : ℚ)

/-- Elementwise product of two tensors. -/
def torchMul (a b : Tensor) : Tensor := List.zipWith (fun x y => x * y) a b

/-- The loss computed for one batch of `train` (src/utils.py lines 87-107),
returned as a tensor (a scalar result is a singleton).

* `network` returns the tuple `(output, output2)` that the unweighted branch
  destructures.
* `criterionW` is the same Python callable as `criterion`, at the type the
  weighted branch applies it: there `output = network(input)` is the whole
  tuple and `criterion(output, target)` is a per-sample loss vector.
* `criterion` is the callable at the type of the unweighted branches.
* `criterion1` is the auxiliary loss, whose default mean reduction yields a
  scalar.
* `teacher` is `model_teacher`, `none` when the argument is Python `None`.

With `if_weighted` the loss is
`torch.sum(criterion(output, target) * weights) / torch.sum(weights)`;
otherwise with a teacher it is `criterion(output, model_teacher(input))`;
otherwise it is `criterion(output, target).mean() + criterion1(output2, target) * 0`. -/
def trainBatchLoss (network : Tensor → Tensor × Tensor)
    (criterionW : Tensor × Tensor → Tensor → Tensor)
    (criterion : Tensor → Tensor → Tensor)
    (criterion1 : Tensor → Tensor → ℚ)
    (teacher : Option (Tensor → Tensor))
    (if_weighted : Bool) (input target : Tensor) (weights : Tensor) : Tensor :=
  if if_weighted then
    [torchSum (torchMul (criterionW (network input) target) weights) / torchSum weights]
  else
    match teacher with
    | some model_teacher => criterion (network input).1 (model_teacher input)
    | none =>
      [torchMean (criterion (network input).1 target) +
        criterion1 (network input).2 target * 0]

/-! ### The epoch loops of `train` and `test` (src/utils.py lines 73-185)

The per-batch body (forward pass, loss, backward, optimizer step, meter
updates) is abstracted as one fallible step function: the Python code installs
no exception handler, so the first error raised by a step leaves the loop and
propagates; `record_train_stats` / `record_test_stats` run only after the
loop has finished every batch. -/

/-- The `for i, contents in enumerate(train_loader)` loop: run the step on
each batch in order, stopping at the first raised error. -/
def runBatches {β E : Type} (step : β → Except E Unit) : List β → Except E Unit
  | [] => Except.ok ()
  | b :: bs =>
    match step b with
    | Except.error e => Except.error e
    | Except.ok _ => runBatches step bs

/-- `train`, abstracted to its control flow: the batch loop, then (only on
success) `scheduler.step()` and `record_train_stats`.  The returned recorder
is the caller's `rec` after the call; an error carries no recorder because the
recording line was never reached. -/
def trainRun {β E : Type} (step : β → Except E Unit) (batches : List β)
    (rec : Recorder) (epoch loss acc lr : ℚ) : Except E Recorder :=
  match runBatches step batches with
  | Except.error e => Except.error e
  | Except.ok _ => Except.ok (record_train_stats rec epoch loss acc lr)

/-- `test`, abstracted to its control flow: the batch loop (and the subsequent
metric evaluation, also abstracted into the steps), then on success
`record_test_stats`. -/
def testRun {β E : Type} (step : β → Except E Unit) (batches : List β)
    (rec : Recorder) (epoch loss acc : ℚ) : Except E Recorder :=
  match runBatches step batches with
  | Except.error e => Except.error e
  | Except.ok _ => Except.ok (record_test_stats rec epoch loss acc)

/-! ### Theorems -/

lemma mem_trueStrings_not_falseStrings {s : String} (h : s ∈ trueStrings) :
    s ∉ falseStrings := by
  intro hf
  simp only [trueStrings, List.mem_cons, List.not_mem_nil, or_false] at h
  rcases h with h | h | h | h | h <;> rw [h] at hf <;> exact absurd hf (by decide)

/-- C10: `str_to_bool` returns a boolean argument unchanged; for a string it
returns `true` iff the lowercase form is one of `yes,true,t,y,1`, returns
`false` iff the lowercase form is one of `no,false,f,n,0`, and raises
`ArgumentTypeError` for every other string. -/
theorem str_to_bool_spec :
    (∀ b : Bool, str_to_bool (ArgValue.bool b) = Except.ok b) ∧
    (∀ s : String,
      (str_to_bool (ArgValue.str s) = Except.ok true ↔ s.toLower ∈ trueStrings) ∧
      (str_to_bool (ArgValue.str s) = Except.ok false ↔ s.toLower ∈ falseStrings) ∧
      (str_to_bool (ArgValue.str s) = Except.error ArgTypeError.booleanValueExpected ↔
        (s.toLower ∉ trueStrings ∧ s.toLower ∉ falseStrings))) := by
  refine ⟨fun b => rfl, fun s => ?_⟩
  by_cases ht : s.toLower ∈ trueStrings
  · have hnf : s.toLower ∉ falseStrings := mem_trueStrings_not_falseStrings ht
    simp [str_to_bool, ht, hnf]
  · by_cases hf : s.toLower ∈ falseStrings
    · simp [str_to_bool, ht, hf]
    · simp [str_to_bool, ht, hf]

/-- C7: `record_train_stats` appends exactly one element to each of the four
train-side lists and leaves the test-side lists and `ckpts` unchanged;
`record_test_stats` appends to the three test-side lists and leaves the rest
unchanged; consequently, for every recorder produced by `init_recorder` and
any sequence of recording calls, the four train-side lists have equal length
and so do the three test-side lists. -/
theorem recorder_spec :
    (∀ (rec : Recorder) (step loss acc lr : ℚ),
      (record_train_stats rec step loss acc lr).train_step = rec.train_step ++ [step] ∧
      (record_train_stats rec step loss acc lr).train_loss = rec.train_loss ++ [loss] ∧
      (record_train_stats rec step loss acc lr).train_acc = rec.train_acc ++ [acc] ∧
      (record_train_stats rec step loss acc lr).lr = rec.lr ++ [lr] ∧
      (record_train_stats rec step loss acc lr).test_step = rec.test_step ∧
      (record_train_stats rec step loss acc lr).test_loss = rec.test_loss ∧
      (record_train_stats rec step loss acc lr).test_acc = rec.test_acc ∧
      (record_train_stats rec step loss acc lr).ckpts = rec.ckpts) ∧
    (∀ (rec : Recorder) (step loss acc : ℚ),
      (record_test_stats rec step loss acc).test_step = rec.test_step ++ [step] ∧
      (record_test_stats rec step loss acc).test_loss = rec.test_loss ++ [loss] ∧
      (record_test_stats rec step loss acc).test_acc = rec.test_acc ++ [acc] ∧
      (record_test_stats rec step loss acc).train_step = rec.train_step ∧
      (record_test_stats rec step loss acc).train_loss = rec.train_loss ∧
      (record_test_stats rec step loss acc).train_acc = rec.train_acc ∧
      (record_test_stats rec step loss acc).lr = rec.lr ∧
      (record_test_stats rec step loss acc).ckpts = rec.ckpts) ∧
    (∀ evs : List RecEvent,
      trainAligned (runEvents init_recorder evs) ∧
      testAligned (runEvents init_recorder evs)) := by
  refine ⟨fun rec step loss acc lr => ⟨rfl, rfl, rfl, rfl, rfl, rfl, rfl, rfl⟩,
    fun rec step loss acc => ⟨rfl, rfl, rfl, rfl, rfl, rfl, rfl, rfl⟩, fun evs => ?_⟩
  suffices h : ∀ (evs : List RecEvent) (rec : Recorder), trainAligned rec → testAligned rec →
      trainAligned (runEvents rec evs) ∧ testAligned (runEvents rec evs) by
    exact h evs init_recorder ⟨rfl, rfl, rfl⟩ ⟨rfl, rfl⟩
  intro evs
  induction evs with
  | nil => exact fun rec ht hte => ⟨ht, hte⟩
  | cons ev evs ih =>
    intro rec ht hte
    have hstep : trainAligned (applyEvent rec ev) ∧ testAligned (applyEvent rec ev) := by
      cases ev <;>
        simp [applyEvent, record_train_stats, record_test_stats, record_ckpt,
          trainAligned, testAligned] at * <;> omega
    exact ih (applyEvent rec ev) hstep.1 hstep.2

/-- C9: constructing a `WeightedSubset` raises `AssertionError` iff the index
and weight lists have different lengths; a successful construction stores the
three arguments; `__getitem__` on an in-range integer index returns
`(dataset[indices[idx]], weights[idx])`, and on a list of in-range indices
returns the dataset items at the mapped indices paired with the weights at
the positions in the list. -/
theorem weightedSubset_spec {α : Type} [Inhabited α] :
    (∀ (dataset : List α) (indices : List ℕ) (weights : List ℚ),
      (WeightedSubset.make dataset indices weights = Except.error AssertionError.failed ↔
        indices.length ≠ weights.length) ∧
      (indices.length = weights.length →
        WeightedSubset.make dataset indices weights =
          Except.ok ⟨dataset, indices, weights⟩)) ∧
    (∀ (w : WeightedSubset α) (idx : ℕ) (h1 : idx < w.indices.length)
        (h2 : w.indices[idx] < w.dataset.length) (h3 : idx < w.weights.length),
      w.getItem idx = (w.dataset[w.indices[idx]], w.weights[idx])) ∧
    (∀ (w : WeightedSubset α) (idx : List ℕ),
      (w.getItemList idx).1.length = idx.length ∧
      (w.getItemList idx).2.length = idx.length ∧
      (∀ (j : ℕ) (hj : j < idx.length) (h1 : idx[j] < w.indices.length)
          (h2 : w.indices[idx[j]] < w.dataset.length) (h3 : idx[j] < w.weights.length),
        (w.getItemList idx).1.getD j default = w.dataset[w.indices[idx[j]]] ∧
        (w.getItemList idx).2.getD j 0 = w.weights[idx[j]])) := by
  refine ⟨fun dataset indices weights => ⟨?_, fun h => by simp [WeightedSubset.make, h]⟩,
    fun w idx h1 h2 h3 => ?_, fun w idx => ⟨by simp [WeightedSubset.getItemList],
      by simp [WeightedSubset.getItemList], fun j hj h1 h2 h3 => ⟨?_, ?_⟩⟩⟩
  · constructor
    · intro h heq
      simp [WeightedSubset.make, heq] at h
    · intro h
      simp [WeightedSubset.make, h]
  · simp [WeightedSubset.getItem, List.getD_eq_getElem, h1, h2, h3]
  · simp [WeightedSubset.getItemList, List.getD_eq_getElem, hj, h1, h2]
  · simp [WeightedSubset.getItemList, List.getD_eq_getElem, hj, h3]

/-- C1: the per-batch loss of `train` is, with sample weighting enabled,
`sum(criterion(output, target) * weights) / sum(weights)`; with a teacher
model supplied (and weighting off), the knowledge-distillation loss
`criterion(output, model_teacher(input))`; otherwise
`criterion(output, target).mean() + 0 * criterion1(output2, target)`, which
equals the mean criterion loss. -/
theorem trainBatchLoss_spec :
    ∀ (network : Tensor → Tensor × Tensor)
      (criterionW : Tensor × Tensor → Tensor → Tensor)
      (criterion : Tensor → Tensor → Tensor)
      (criterion1 : Tensor → Tensor → ℚ)
      (model_teacher : Tensor → Tensor)
      (teacher : Option (Tensor → Tensor))
      (input target weights : Tensor),
      (trainBatchLoss network criterionW criterion criterion1 teacher true
          input target weights =
        [torchSum (torchMul (criterionW (network input) target) weights) /
          torchSum weights]) ∧
      (trainBatchLoss network criterionW criterion criterion1 (some model_teacher)
          false input target weights =
        criterion (network input).1 (model_teacher input)) ∧
      (trainBatchLoss network criterionW criterion criterion1 none false
          input target weights =
        [torchMean (criterion (network input).1 target)]) := by
  intro network criterionW criterion criterion1 model_teacher teacher input target weights
  refine ⟨rfl, rfl, ?_⟩
  simp [trainBatchLoss, mul_zero, add_zero]

/-- C6: `train` and `test` install no exception handler: if a step of the
batch loop raises, the first such error propagates unchanged to the caller,
and no updated recorder is produced, because `record_train_stats` /
`record_test_stats` run only after the loop has completed every batch. -/
theorem train_test_error_spec {β E : Type} (step : β → Except E Unit)
    (batches : List β) (rec : Recorder) (epoch loss acc lr : ℚ) :
    (∀ (pre : List β) (b : β) (post : List β) (e : E),
      batches = pre ++ b :: post → (∀ x ∈ pre, step x = Except.ok ()) →
      step b = Except.error e → runBatches step batches = Except.error e) ∧
    (∀ e : E, runBatches step batches = Except.error e →
      trainRun step batches rec epoch loss acc lr = Except.error e ∧
      testRun step batches rec epoch loss acc = Except.error e ∧
      (∀ rec2 : Recorder,
        trainRun step batches rec epoch loss acc lr ≠ Except.ok rec2) ∧
      (∀ rec2 : Recorder,
        testRun step batches rec epoch loss acc ≠ Except.ok rec2)) := by
  constructor
  · intro pre b post e hb hpre hberr
    subst hb
    induction pre with
    | nil => simp [runBatches, hberr]
    | cons a pre ih =>
      have ha : step a = Except.ok () := hpre a (by simp)
      simp only [List.cons_append, runBatches, ha]
      exact ih (fun x hx => hpre x (by simp [hx]))
  · intro e h
    refine ⟨by simp [trainRun, h], by simp [testRun, h], ?_, ?_⟩
    · intro rec2
      simp [trainRun, h]
    · intro rec2
      simp [testRun, h]

lemma classCounts_foldl (cls : ℤ) (pairs : List (ℤ × ℤ)) : ∀ m : ConfCounts,
    (pairs.foldl (fun m p => confUpdate p.1 p.2 cls m) m).TP
        = m.TP + pairs.countP (fun p => p.1 == cls && p.2 == cls) ∧
    (pairs.foldl (fun m p => confUpdate p.1 p.2 cls m) m).FP
        = m.FP + pairs.countP (fun p => !(p.1 == cls) && p.2 == cls) ∧
    (pairs.foldl (fun m p => confUpdate p.1 p.2 cls m) m).TN
        = m.TN + pairs.countP (fun p => !(p.1 == cls) && !(p.2 == cls)) := by
  induction pairs with
  | nil => intro m; simp
  | cons p pairs ih =>
    intro m
    by_cases h1 : p.1 = cls <;> by_cases h2 : p.2 = cls <;>
      simp only [List.foldl_cons, List.countP_cons, confUpdate, h1, h2, if_true,
        if_false, ite_true, ite_false, decide_True, decide_False, Bool.not_true,
        Bool.not_false, Bool.true_and, Bool.false_and, Bool.and_true, Bool.and_false,
        beq_iff_eq] <;>
      rcases ih (confUpdate p.1 p.2 cls m) with ⟨ihTP, ihFP, ihTN⟩ <;>
      rcases ih m with ⟨jTP, jFP, jTN⟩ <;>
      simp [confUpdate, h1, h2] at ihTP ihFP ihTN <;>
      refine ⟨?_, ?_, ?_⟩ <;> simp [h1, h2] <;> omega

/-- C2: for equal-length label lists, `compute_confusion_matrix_elements`
returns a dictionary keyed exactly by the distinct labels occurring in
`y_true` or `y_pred`, mapping each class `c` to
`TP` = #positions with both labels `c`,
`FP` = #positions with true label not `c` and predicted label `c`,
`TN` = #positions with both labels different from `c`. -/
theorem compute_confusion_matrix_elements_spec (yTrue yPred : List ℤ)
    (h : yTrue.length = yPred.length) :
    ((compute_confusion_matrix_elements yTrue yPred).1.Nodup ∧
      ∀ c : ℤ, c ∈ (compute_confusion_matrix_elements yTrue yPred).1 ↔
        (c ∈ yTrue ∨ c ∈ yPred)) ∧
    (∀ c : ℤ,
      ((compute_confusion_matrix_elements yTrue yPred).2 c).TP
        = (yTrue.zip yPred).countP (fun p => p.1 == c && p.2 == c) ∧
      ((compute_confusion_matrix_elements yTrue yPred).2 c).FP
        = (yTrue.zip yPred).countP (fun p => !(p.1 == c) && p.2 == c) ∧
      ((compute_confusion_matrix_elements yTrue yPred).2 c).TN
        = (yTrue.zip yPred).countP (fun p => !(p.1 == c) && !(p.2 == c))) := by
  refine ⟨⟨List.nodup_dedup _, fun c => ?_⟩, fun c => ?_⟩
  · simp [compute_confusion_matrix_elements, confusionClasses, List.mem_dedup]
  · have := classCounts_foldl c (yTrue.zip yPred) ⟨0, 0, 0⟩
    simpa [compute_confusion_matrix_elements, classCounts] using this

/-- Witness for C2 at `y_true = [0, 1, 1]`, `y_pred = [0, 1, 0]`. -/
theorem compute_confusion_matrix_elements_spec_witness :
    ((compute_confusion_matrix_elements [0, 1, 1] [0, 1, 0]).1.Nodup ∧
      ∀ c : ℤ, c ∈ (compute_confusion_matrix_elements [0, 1, 1] [0, 1, 0]).1 ↔
        (c ∈ ([0, 1, 1] : List ℤ) ∨ c ∈ ([0, 1, 0] : List ℤ))) ∧
    (∀ c : ℤ,
      ((compute_confusion_matrix_elements [0, 1, 1] [0, 1, 0]).2 c).TP
        = (([0, 1, 1] : List ℤ).zip ([0, 1, 0] : List ℤ)).countP
            (fun p => p.1 == c && p.2 == c) ∧
      ((compute_confusion_matrix_elements [0, 1, 1] [0, 1, 0]).2 c).FP
        = (([0, 1, 1] : List ℤ).zip ([0, 1, 0] : List ℤ)).countP
            (fun p => !(p.1 == c) && p.2 == c) ∧
      ((compute_confusion_matrix_elements [0, 1, 1] [0, 1, 0]).2 c).TN
        = (([0, 1, 1] : List ℤ).zip ([0, 1, 0] : List ℤ)).countP
            (fun p => !(p.1 == c) && !(p.2 == c))) :=
  compute_confusion_matrix_elements_spec [0, 1, 1] [0, 1, 0] (by decide)

lemma countP_confusion_partition (c : ℤ) (l : List (ℤ × ℤ)) :
    l.countP (fun p => p.1 == c && p.2 == c) +
    l.countP (fun p => p.1 == c && !(p.2 == c)) +
    l.countP (fun p => !(p.1 == c) && p.2 == c) +
    l.countP (fun p => !(p.1 == c) && !(p.2 == c)) = l.length := by
  induction l with
  | nil => simp
  | cons p l ih =>
    by_cases h1 : p.1 = c <;> by_cases h2 : p.2 = c <;>
      simp [List.countP_cons, h1, h2] <;> omega

lemma sum_map_add_nat {α : Type} (l : List α) (f g : α → ℕ) :
    (l.map (fun a => f a + g a)).sum = (l.map f).sum + (l.map g).sum := by
  induction l with
  | nil => simp
  | cons a l ih => simp [ih]; omega

lemma sum_map_ite_one {α : Type} (l : List α) (p : α → Bool) :
    (l.map (fun a => if p a then (1 : ℕ) else 0)).sum = l.countP p := by
  induction l with
  | nil => simp
  | cons a l ih => by_cases h : p a <;> simp [List.countP_cons, h, ih] <;> omega

lemma sum_TP_over_classes (ks : List ℤ) (hnd : ks.Nodup) :
    ∀ l : List (ℤ × ℤ), (∀ p ∈ l, p.1 = p.2 → p.1 ∈ ks) →
      (ks.map (fun c => l.countP (fun p => p.1 == c && p.2 == c))).sum
        = l.countP (fun p => p.1 == p.2) := by
  intro l
  induction l with
  | nil => simp
  | cons p l ih =>
    intro hcov
    have hrec := ih (fun q hq => hcov q (List.mem_cons_of_mem _ hq))
    simp only [List.countP_cons]
    rw [sum_map_add_nat, hrec]
    by_cases hp : p.1 = p.2
    · have hone : (ks.map (fun c => if p.1 == c && p.2 == c then (1 : ℕ) else 0)).sum = 1 := by
        have hp1 : (fun c : ℤ => (p.1 == c && p.2 == c : Bool)) = fun c => c == p.1 := by
          funext c
          by_cases hc : c = p.1 <;> simp [hc, hp.symm] <;> omega
        rw [sum_map_ite_one, hp1]
        exact List.count_eq_one_of_mem hnd (hcov p (List.mem_cons_self p l) hp)
      rw [hone]
      simp [hp]
    · have hzero : (ks.map (fun c => if p.1 == c && p.2 == c then (1 : ℕ) else 0)).sum = 0 := by
        have hp0 : (fun c : ℤ => (p.1 == c && p.2 == c : Bool)) = fun _ => false := by
          funext c
          by_cases h1 : p.1 = c <;> by_cases h2 : p.2 = c <;> simp [h1, h2]
          exact hp (h1.trans h2.symm)
        rw [sum_map_ite_one, hp0]
        simp
      rw [hzero]
      simp [hp]

/-- C8: for equal-length lists of length `n`, every class `c` in the returned
dictionary satisfies `TP + FP + TN = n - FN`, where `FN` counts positions
with true label `c` and a different predicted label; and the sum of `TP` over
all classes equals the number of positions where the two labels agree. -/
theorem confusion_sum_spec (yTrue yPred : List ℤ)
    (h : yTrue.length = yPred.length) :
    (∀ c ∈ (compute_confusion_matrix_elements yTrue yPred).1,
      ((compute_confusion_matrix_elements yTrue yPred).2 c).TP +
        ((compute_confusion_matrix_elements yTrue yPred).2 c).FP +
        ((compute_confusion_matrix_elements yTrue yPred).2 c).TN
        = yTrue.length -
            (yTrue.zip yPred).countP (fun p => p.1 == c && !(p.2 == c))) ∧
    ((compute_confusion_matrix_elements yTrue yPred).1.map
        (fun c => ((compute_confusion_matrix_elements yTrue yPred).2 c).TP)).sum
      = (yTrue.zip yPred).countP (fun p => p.1 == p.2) := by
  have hlen : (yTrue.zip yPred).length = yTrue.length := by
    rw [List.length_zip, h, min_self]
  have hcounts : ∀ c : ℤ,
      ((compute_confusion_matrix_elements yTrue yPred).2 c).TP
        = (yTrue.zip yPred).countP (fun p => p.1 == c && p.2 == c) ∧
      ((compute_confusion_matrix_elements yTrue yPred).2 c).FP
        = (yTrue.zip yPred).countP (fun p => !(p.1 == c) && p.2 == c) ∧
      ((compute_confusion_matrix_elements yTrue yPred).2 c).TN
        = (yTrue.zip yPred).countP (fun p => !(p.1 == c) && !(p.2 == c)) := by
    intro c
    have := classCounts_foldl c (yTrue.zip yPred) ⟨0, 0, 0⟩
    simpa [compute_confusion_matrix_elements, classCounts] using this
  constructor
  · intro c _
    rcases hcounts c with ⟨hTP, hFP, hTN⟩
    have hpart := countP_confusion_partition c (yTrue.zip yPred)
    have hFNle : (yTrue.zip yPred).countP (fun p => p.1 == c && !(p.2 == c))
        ≤ yTrue.length := le_trans (List.countP_le_length _) (le_of_eq hlen)
    omega
  · have hmapeq : (compute_confusion_matrix_elements yTrue yPred).1.map
        (fun c => ((compute_confusion_matrix_elements yTrue yPred).2 c).TP)
        = (compute_confusion_matrix_elements yTrue yPred).1.map
            (fun c => (yTrue.zip yPred).countP (fun p => p.1 == c && p.2 == c)) := by
      apply congrArg (fun f => List.map f (compute_confusion_matrix_elements yTrue yPred).1)
      funext c
      exact (hcounts c).1
    rw [hmapeq]
    apply sum_TP_over_classes _ (List.nodup_dedup _)
    intro p hp heq
    obtain ⟨a, b⟩ := p
    have hmem := (List.mem_zip hp).1
    simp only [compute_confusion_matrix_elements, confusionClasses, List.mem_dedup,
      List.mem_append]
    exact Or.inl hmem

/-- Witness for C8 at `y_true = [0, 1, 2]`, `y_pred = [0, 2, 2]`. -/
theorem confusion_sum_spec_witness :
    (∀ c ∈ (compute_confusion_matrix_elements [0, 1, 2] [0, 2, 2]).1,
      ((compute_confusion_matrix_elements [0, 1, 2] [0, 2, 2]).2 c).TP +
        ((compute_confusion_matrix_elements [0, 1, 2] [0, 2, 2]).2 c).FP +
        ((compute_confusion_matrix_elements [0, 1, 2] [0, 2, 2]).2 c).TN
        = ([0, 1, 2] : List ℤ).length -
            (([0, 1, 2] : List ℤ).zip ([0, 2, 2] : List ℤ)).countP
              (fun p => p.1 == c && !(p.2 == c))) ∧
    ((compute_confusion_matrix_elements [0, 1, 2] [0, 2, 2]).1.map
        (fun c => ((compute_confusion_matrix_elements [0, 1, 2] [0, 2, 2]).2 c).TP)).sum
      = (([0, 1, 2] : List ℤ).zip ([0, 2, 2] : List ℤ)).countP
          (fun p => p.1 == p.2) :=
  confusion_sum_spec [0, 1, 2] [0, 2, 2] (by decide)

lemma averageMeter_updates_ok (us : List (ℚ × ℚ)) : ∀ m : AverageMeter,
    countsStayNonzero m.count us = true →
    ∃ r : AverageMeter, m.updates us = Except.ok r ∧
      r.sum = m.sum + (us.map (fun u => u.1 * u.2)).sum ∧
      r.count = m.count + (us.map (fun u => u.2)).sum ∧
      (us = [] → r = m) ∧
      (us ≠ [] → r.avg = r.sum / r.count ∧
        us.getLast?.map Prod.fst = some r.val) := by
  induction us with
  | nil =>
    intro m _
    exact ⟨m, rfl, by simp, by simp, fun _ => rfl, fun hne => absurd rfl hne⟩
  | cons u us ih =>
    intro m hc
    simp only [countsStayNonzero, Bool.and_eq_true, decide_eq_true_eq] at hc
    obtain ⟨hc1, hc2⟩ := hc
    set m2 : AverageMeter :=
      { m with val := u.1, sum := m.sum + u.1 * u.2, count := m.count + u.2,
               avg := (m.sum + u.1 * u.2) / (m.count + u.2) } with hm2
    have hupd : m.update u.1 u.2 = Except.ok m2 := by
      simp [AverageMeter.update, hc1, hm2]
    have hc2m : countsStayNonzero m2.count us = true := by
      simpa [hm2] using hc2
    obtain ⟨r, hrun, hsum, hcount, hnil, hne⟩ := ih m2 hc2m
    refine ⟨r, ?_, ?_, ?_, fun habs => absurd habs (by simp), fun _ => ?_⟩
    · simp [AverageMeter.updates, hupd, hrun]
    · simp [hsum, hm2]; ring
    · simp [hcount, hm2]; ring
    · cases us with
      | nil =>
        have hr : r = m2 := hnil rfl
        subst hr
        exact ⟨by simp [hm2], by simp⟩
      | cons v vs =>
        obtain ⟨havg, hval⟩ := hne (by simp)
        exact ⟨havg, by simpa [List.getLast?] using hval⟩

/-- Counterexample to C4 as stated: for the update sequence
`update(1, 0), update(1, 2)` the total count `0 + 2` is positive, yet the
first call already divides by zero (`self.avg = self.sum / self.count` with
`count = 0` raises `ZeroDivisionError`), so no final meter state satisfying
the claimed equations is ever reached. -/
theorem averageMeter_counterexample :
    (0 : ℚ) < 0 + 2 ∧
    (AverageMeter.reset ⟨"Loss", ":.4e", 1, 1, 1, 1⟩).updates [(1, 0), (1, 2)]
      = Except.error PyError.zeroDivisionError := by
  constructor
  · norm_num
  · norm_num [AverageMeter.updates, AverageMeter.update, AverageMeter.reset]

/-- C4 (amended): after `reset`, for a non-empty sequence of `update` calls in
which every intermediate count (each prefix sum of the `n_i`) is nonzero — in
particular the final count, so the total — the meter ends in a state with
`sum = Σ v_i * n_i`, `count = Σ n_i`, `avg = sum / count` and `val` the most
recent value; `reset` sets `val`, `avg`, `sum` and `count` to `0`. -/
theorem averageMeter_spec (m : AverageMeter) (us : List (ℚ × ℚ))
    (hne : us ≠ []) (hc : countsStayNonzero 0 us = true) :
    (m.reset.val = 0 ∧ m.reset.avg = 0 ∧ m.reset.sum = 0 ∧ m.reset.count = 0) ∧
    ∃ r : AverageMeter, m.reset.updates us = Except.ok r ∧
      r.sum = (us.map (fun u => u.1 * u.2)).sum ∧
      r.count = (us.map (fun u => u.2)).sum ∧
      r.avg = r.sum / r.count ∧
      us.getLast?.map Prod.fst = some r.val := by
  refine ⟨⟨rfl, rfl, rfl, rfl⟩, ?_⟩
  have hc0 : countsStayNonzero m.reset.count us = true := by
    simpa [AverageMeter.reset] using hc
  obtain ⟨r, hrun, hsum, hcount, _, hnee⟩ := averageMeter_updates_ok us m.reset hc0
  obtain ⟨havg, hval⟩ := hnee hne
  exact ⟨r, hrun, by simpa [AverageMeter.reset] using hsum,
    by simpa [AverageMeter.reset] using hcount, havg, hval⟩

/-- Witness for C4 (amended) at the sequence `update(5, 1), update(3, 2)`. -/
theorem averageMeter_spec_witness :
    ((AverageMeter.reset ⟨"Acc", ":6.2f", 7, 7, 7, 7⟩).val = 0 ∧
      (AverageMeter.reset ⟨"Acc", ":6.2f", 7, 7, 7, 7⟩).avg = 0 ∧
      (AverageMeter.reset ⟨"Acc", ":6.2f", 7, 7, 7, 7⟩).sum = 0 ∧
      (AverageMeter.reset ⟨"Acc", ":6.2f", 7, 7, 7, 7⟩).count = 0) ∧
    ∃ r : AverageMeter,
      (AverageMeter.reset ⟨"Acc", ":6.2f", 7, 7, 7, 7⟩).updates [(5, 1), (3, 2)]
        = Except.ok r ∧
      r.sum = (([(5, 1), (3, 2)] : List (ℚ × ℚ)).map (fun u => u.1 * u.2)).sum ∧
      r.count = (([(5, 1), (3, 2)] : List (ℚ × ℚ)).map (fun u => u.2)).sum ∧
      r.avg = r.sum / r.count ∧
      ([(5, 1), (3, 2)] : List (ℚ × ℚ)).getLast?.map Prod.fst = some r.val :=
  averageMeter_spec ⟨"Acc", ":6.2f", 7, 7, 7, 7⟩ [(5, 1), (3, 2)]
    (by decide) (by norm_num [countsStayNonzero])

lemma countP_zip_comm (xs : List ℕ) : ∀ ys : List ℕ,
    (xs.zip ys).countP (fun p => p.1 == p.2)
      = (ys.zip xs).countP (fun p => p.1 == p.2) := by
  induction xs with
  | nil => intro ys; cases ys <;> simp
  | cons x xs ih =>
    intro ys
    cases ys with
    | nil => simp
    | cons y ys =>
      simp only [List.zip_cons_cons, List.countP_cons, ih ys]
      by_cases h : x = y
      · simp [h]
      · have h2 : ¬y = x := fun e => h e.symm
        simp [h, h2]

lemma evaluate_accuracy_foldl {I : Type} (net : List I → List (List ℚ) × Tensor)
    (batches : List (List I × List ℕ)) : ∀ (a0 : ℚ) (n0 : ℕ) (T0 P0 : List ℕ),
    batches.foldl (evalStep net) (a0, n0, T0, P0)
      = (a0 + ((batches.map
            (fun b => matchCount (((net b.1).1).map argmaxIdx) b.2)).sum : ℕ),
         n0 + (batches.map (fun b => b.2.length)).sum,
         T0 ++ trueLabelsOf batches,
         P0 ++ modelPredsOf net batches) := by
  induction batches with
  | nil => intro a0 n0 T0 P0; simp [trueLabelsOf, modelPredsOf]
  | cons b bs ih =>
    intro a0 n0 T0 P0
    simp only [List.foldl_cons, evalStep]
    rw [ih]
    simp only [trueLabelsOf, modelPredsOf, List.map_cons, List.sum_cons,
      List.flatten_cons, List.append_assoc, Prod.mk.injEq]
    refine ⟨by push_cast; ring, by omega, trivial⟩

lemma matchCount_flatten {I : Type} (net : List I → List (List ℚ) × Tensor)
    (batches : List (List I × List ℕ)) :
    (∀ b ∈ batches, ((net b.1).1).length = b.2.length) →
    (batches.map (fun b => matchCount (((net b.1).1).map argmaxIdx) b.2)).sum
      = ((trueLabelsOf batches).zip (modelPredsOf net batches)).countP
          (fun q => q.1 == q.2) := by
  induction batches with
  | nil => intro _; simp [trueLabelsOf, modelPredsOf]
  | cons b bs ih =>
    intro h
    have hb : ((net b.1).1).length = b.2.length := h b (by simp)
    have hrest := ih (fun x hx => h x (by simp [hx]))
    simp only [List.map_cons, List.sum_cons, trueLabelsOf, modelPredsOf,
      List.flatten_cons]
    rw [List.zip_append (by simp [hb]), List.countP_append]
    have hswap : (b.2.zip (((net b.1).1).map argmaxIdx)).countP (fun q => q.1 == q.2)
        = matchCount (((net b.1).1).map argmaxIdx) b.2 := by
      rw [matchCount, countP_zip_comm]
    rw [hswap]
    simp only [trueLabelsOf, modelPredsOf] at hrest
    omega

/-- C5: for a finite data iterator whose batches carry at least one sample in
total, `evaluate_accuracy` returns `(a, T, P)` where `T` concatenates the
batches' true labels in iteration order, `P` concatenates the per-row argmax
predictions of `net(X)[0]` in the same order, and `a` is the number of
positions where `T` and `P` agree divided by the total number of samples, a
fraction in `[0, 1]`. -/
theorem evaluate_accuracy_spec {I : Type} (net : List I → List (List ℚ) × Tensor)
    (batches : List (List I × List ℕ))
    (hrows : ∀ b ∈ batches, ((net b.1).1).length = b.2.length)
    (hne : 0 < (trueLabelsOf batches).length) :
    evaluate_accuracy net batches
      = ((((trueLabelsOf batches).zip (modelPredsOf net batches)).countP
            (fun q => q.1 == q.2) : ℕ)
          / ((trueLabelsOf batches).length : ℚ),
         trueLabelsOf batches, modelPredsOf net batches) ∧
    0 ≤ (evaluate_accuracy net batches).1 ∧
    (evaluate_accuracy net batches).1 ≤ 1 := by
  have hlen : (batches.map (fun b => b.2.length)).sum
      = (trueLabelsOf batches).length := by
    rw [trueLabelsOf, List.length_flatten, List.map_map]
    rfl
  have hmain : evaluate_accuracy net batches
      = ((((trueLabelsOf batches).zip (modelPredsOf net batches)).countP
            (fun q => q.1 == q.2) : ℕ)
          / ((trueLabelsOf batches).length : ℚ),
         trueLabelsOf batches, modelPredsOf net batches) := by
    rw [evaluate_accuracy]
    rw [evaluate_accuracy_foldl net batches 0 0 [] []]
    simp only [zero_add, List.nil_append]
    rw [matchCount_flatten net batches hrows, hlen]
  refine ⟨hmain, ?_, ?_⟩
  · rw [hmain]
    positivity
  · rw [hmain]
    have hcle : (((trueLabelsOf batches).zip (modelPredsOf net batches)).countP
        (fun q => q.1 == q.2) : ℕ) ≤ (trueLabelsOf batches).length := by
      calc ((trueLabelsOf batches).zip (modelPredsOf net batches)).countP
            (fun q => q.1 == q.2)
          ≤ ((trueLabelsOf batches).zip (modelPredsOf net batches)).length :=
            List.countP_le_length _
        _ ≤ (trueLabelsOf batches).length := by
            rw [List.length_zip]; exact min_le_left _ _
    rw [div_le_one (by exact_mod_cast hne)]
    exact_mod_cast hcle

/-- A concrete two-batch evaluation scenario used to instantiate C5. -/
def exampleNet (xs : List ℚ) : List (List ℚ) × Tensor :=
  (xs.map (fun x => [x, 0]), [])

/-- Two batches of one sample each, with labels `0` and `1`. -/
def exampleBatches : List (List ℚ × List ℕ) := [([1], [0]), ([2], [1])]

/-- Witness for C5 at a concrete network and batch list. -/
theorem evaluate_accuracy_spec_witness :
    evaluate_accuracy exampleNet exampleBatches
      = ((((trueLabelsOf exampleBatches).zip
            (modelPredsOf exampleNet exampleBatches)).countP
              (fun q => q.1 == q.2) : ℕ)
          / ((trueLabelsOf exampleBatches).length : ℚ),
         trueLabelsOf exampleBatches, modelPredsOf exampleNet exampleBatches) ∧
    0 ≤ (evaluate_accuracy exampleNet exampleBatches).1 ∧
    (evaluate_accuracy exampleNet exampleBatches).1 ≤ 1 :=
  evaluate_accuracy_spec exampleNet exampleBatches (by decide) (by decide)

lemma insertIdxDesc_perm (v : List ℚ) (x : ℕ) : ∀ l : List ℕ,
    (insertIdxDesc v x l).Perm (x :: l) := by
  intro l
  induction l with
  | nil => exact List.Perm.refl _
  | cons y ys ih =>
    rw [insertIdxDesc]
    by_cases h : v.getD y 0 > v.getD x 0
    · simp only [if_pos h]
      exact (List.Perm.cons y ih).trans (List.Perm.swap x y ys)
    · simp only [if_neg h]
      exact List.Perm.refl _

lemma sortIdxDesc_perm (v : List ℚ) :
    (sortIdxDesc v).Perm (List.range v.length) := by
  rw [sortIdxDesc]
  generalize List.range v.length = l
  induction l with
  | nil => exact List.Perm.refl _
  | cons x xs ih =>
    simp only [List.foldr_cons]
    exact (insertIdxDesc_perm v x _).trans (List.Perm.cons x ih)

lemma sortIdxDesc_nodup (v : List ℚ) : (sortIdxDesc v).Nodup :=
  (sortIdxDesc_perm v).symm.nodup (List.nodup_range _)

lemma countP_beq_nodup {l : List ℕ} (h : l.Nodup) (t : ℕ) :
    l.countP (fun j => j == t) = if t ∈ l then 1 else 0 := by
  induction l with
  | nil => simp
  | cons a l ih =>
    rw [List.countP_cons]
    rcases List.nodup_cons.mp h with ⟨ha, hl⟩
    by_cases hat : a = t
    · subst hat
      simp [ih hl, ha]
    · have hmem : (t ∈ a :: l) ↔ (t ∈ l) := by
        constructor
        · intro hm
          rcases List.mem_cons.mp hm with heq | hm2
          · exact absurd heq.symm hat
          · exact hm2
        · exact fun hm => List.mem_cons_of_mem a hm
      have hba : (a == t) = false := by simp [hat]
      rw [ih hl]
      simp only [hmem, hba]
      simp

lemma le_foldl_max (l : List ℕ) : ∀ a : ℕ,
    a ≤ l.foldl max a ∧ ∀ k ∈ l, k ≤ l.foldl max a := by
  induction l with
  | nil => intro a; exact ⟨le_refl a, by simp⟩
  | cons x xs ih =>
    intro a
    have h := ih (max a x)
    refine ⟨le_trans (le_max_left a x) h.1, ?_⟩
    intro k hk
    rcases List.mem_cons.mp hk with rfl | hk2
    · exact le_trans (le_max_right a k) h.1
    · exact h.2 k hk2

/-- C3: for a logits matrix with one row per target entry and at least
`max(topk)` columns, `accuracy` returns one value per `k` in `topk`, in
order, and the value for `k` is `100 * m_k / n` where `m_k` counts the rows
whose `k` largest-logit column indices (the first `k` indices in
value-descending order) include the row's target. -/
theorem accuracy_topk_spec (output : List (List ℚ)) (target : List ℕ)
    (topk : List ℕ) (hlen : output.length = target.length)
    (hn : 0 < target.length) (htk : topk ≠ [])
    (hcols : ∀ row ∈ output, topk.foldl max 0 ≤ row.length) :
    accuracy output target topk = topk.map (fun k =>
      100 * (((output.zip target).countP
          (fun rt => decide (rt.2 ∈ (sortIdxDesc rt.1).take k)) : ℕ) : ℚ)
        / (target.length : ℚ)) := by
  simp only [accuracy]
  apply List.map_congr_left
  intro k hk
  have hkmax : k ≤ topk.foldl max 0 := (le_foldl_max topk 0).2 k hk
  rw [List.zip_map_left, List.map_map]
  have hpt : ∀ rt ∈ output.zip target,
      ((fun pt : List ℕ × ℕ => ((pt.1.take k).countP (fun j => j == pt.2) : ℕ)) ∘
          Prod.map (fun row => topkPred row (topk.foldl max 0)) id) rt
        = if decide (rt.2 ∈ (sortIdxDesc rt.1).take k) then (1 : ℕ) else 0 := by
    intro rt _
    simp only [Function.comp, Prod.map, id]
    rw [topkPred, List.take_take, min_eq_left hkmax]
    rw [countP_beq_nodup
      (List.Nodup.sublist (List.take_sublist _ _) (sortIdxDesc_nodup rt.1)) rt.2]
    simp
  rw [List.map_congr_left hpt, sum_map_ite_one]
  push_cast
  ring

/-- Witness for C3 at `output = [[1, 3], [2, 0]]`, `target = [0, 0]`,
`topk = (1, 2)`. -/
theorem accuracy_topk_spec_witness :
    accuracy [[1, 3], [2, 0]] [0, 0] [1, 2] = ([1, 2] : List ℕ).map (fun k =>
      100 * (((([[1, 3], [2, 0]] : List (List ℚ)).zip ([0, 0] : List ℕ)).countP
          (fun rt => decide (rt.2 ∈ (sortIdxDesc rt.1).take k)) : ℕ) : ℚ)
        / ((([0, 0] : List ℕ).length : ℕ) : ℚ)) :=
  accuracy_topk_spec [[1, 3], [2, 0]] [0, 0] [1, 2]
    (by decide) (by decide) (by decide) (by decide)
